import Mathlib

/-!
Shallow embedding of `src/pycalc.py` (function `calculate_pi_gauss_legendre`).

The Python code computes Pi with the Gauss-Legendre iteration on top of the
`decimal` module: every arithmetic operation is carried out in a context of
`digits + 10` significant decimal digits with ROUND_HALF_EVEN rounding.
We model a `decimal.Decimal` value as a coefficient/exponent pair
(value = c * 10^e) and each context operation (add, subtract, multiply,
divide, sqrt) as the exact rational result rounded half-even to the context
precision, with the ideal-exponent bookkeeping of the decimal specification
(which matters only for the final `str` rendering).
-/

namespace PyCalc

set_option maxRecDepth 1000000

/-- A `decimal.Decimal` finite number: the value is `c * 10 ^ e`.
(The Python program never produces infinities or NaNs: its values stay
near 1 in magnitude, far away from the context's exponent limits.) -/
structure Dec where
  c : ℤ
  e : ℤ
  deriving DecidableEq, Repr

/-- Rational value denoted by a `Dec`. -/
def Dec.val (x : Dec) : ℚ := (x.c : ℚ) * (10 : ℚ) ^ x.e

/-- Fuel-indexed decimal digit counter (structural recursion, so that the
kernel can evaluate it inside proofs). -/
def numDigitsAux : ℕ → ℕ → ℕ
  | 0, _ => 0
  | fuel + 1, n => if n < 10 then 1 else numDigitsAux fuel (n / 10) + 1

/-- Number of decimal digits of a natural coefficient (1 for 0). -/
def numDigits (n : ℕ) : ℕ := numDigitsAux (n + 1) n

/-- Fuel-indexed integer square root, floor-valued (structural recursion,
so that the kernel can evaluate it inside proofs); `isqrtAux_eq_sqrt`
below certifies it against Mathlib's `Nat.sqrt`. -/
def isqrtAux : ℕ → ℕ → ℕ
  | 0, _ => 0
  | fuel + 1, n =>
    if n = 0 then 0
    else
      let r := isqrtAux fuel (n / 4)
      if (2 * r + 1) ^ 2 ≤ n then 2 * r + 1 else 2 * r

/-- Integer square root: `isqrt n = ⌊√n⌋`. -/
def isqrt (n : ℕ) : ℕ := isqrtAux n n

/-- Round `n / d` to the nearest natural number, ties to even (ROUND_HALF_EVEN). -/
def rdHalfEven (n d : ℕ) : ℕ :=
  let q := n / d
  let r := n % d
  if 2 * r < d then q
  else if d < 2 * r then q + 1
  else if q % 2 = 0 then q else q + 1

/-- Round an exact intermediate coefficient `c * 10 ^ e` to at most `prec`
significant digits, half-even (the context rounding applied by every
`decimal` operation whose exact result has more than `prec` digits). -/
def reduceRound (prec : ℕ) (c : ℤ) (e : ℤ) : Dec :=
  let n := c.natAbs
  let nd := numDigits n
  if nd ≤ prec then ⟨c, e⟩
  else
    let k := nd - prec
    let m := rdHalfEven n (10 ^ k)
    let sgn : ℤ := if c < 0 then -1 else 1
    if numDigits m ≤ prec then ⟨sgn * (m : ℤ), e + (k : ℤ)⟩
    else ⟨sgn * ((m / 10 : ℕ) : ℤ), e + (k : ℤ) + 1⟩

/-- Context addition: exact sum at the smaller exponent, then rounded. -/
def dadd (prec : ℕ) (x y : Dec) : Dec :=
  let em := min x.e y.e
  let cx := x.c * 10 ^ (x.e - em).toNat
  let cy := y.c * 10 ^ (y.e - em).toNat
  reduceRound prec (cx + cy) em

/-- Negation (exact in `decimal`). -/
def dneg (x : Dec) : Dec := ⟨-x.c, x.e⟩

/-- Context subtraction: `x - y = x + (-y)`. -/
def dsub (prec : ℕ) (x y : Dec) : Dec := dadd prec x (dneg y)

/-- Context multiplication: exact product, then rounded. -/
def dmul (prec : ℕ) (x y : Dec) : Dec :=
  reduceRound prec (x.c * y.c) (x.e + y.e)

/-- Absolute value (exact). -/
def decAbs (x : Dec) : Dec := ⟨|x.c|, x.e⟩

/-- Numeric strict comparison of two `Dec`s, as used by
`abs(a - b).compare(threshold) < 0` in the source. -/
def decLt (x y : Dec) : Bool :=
  let em := min x.e y.e
  decide (x.c * 10 ^ (x.e - em).toNat < y.c * 10 ^ (y.e - em).toNat)

/-- Decimal exponent of the positive rational `n / d` (`n, d ≥ 1`):
the unique `E` with `10 ^ E ≤ n / d < 10 ^ (E + 1)`. -/
def qDecExp (n d : ℕ) : ℤ :=
  let cand : ℤ := (numDigits n : ℤ) - (numDigits d : ℤ)
  if 0 ≤ cand then (if d * 10 ^ cand.toNat ≤ n then cand else cand - 1)
  else (if d ≤ n * 10 ^ (-cand).toNat then cand else cand - 1)

/-- Strip trailing zeros from an exact result's coefficient while its exponent
is below the operation's ideal exponent (the `decimal` specification's
treatment of exact division / square-root results). -/
def stripZeros : ℕ → ℕ → ℤ → ℤ → ℕ × ℤ
  | 0, c, e, _ => (c, e)
  | fuel + 1, c, e, ideal =>
    if c % 10 = 0 ∧ c ≠ 0 ∧ e < ideal then stripZeros fuel (c / 10) (e + 1) ideal
    else (c, e)

/-- Context division, correctly rounded half-even to `prec` significant
digits; an exact quotient is brought toward the ideal exponent `x.e - y.e`.
(Division by zero raises in Python; it is unreachable in this program, and
the `y.c = 0` branch is a placeholder.) -/
def ddiv (prec : ℕ) (x y : Dec) : Dec :=
  if y.c = 0 then ⟨0, 0⟩
  else if x.c = 0 then ⟨0, x.e - y.e⟩
  else
    let sgn : ℤ := if x.c * y.c < 0 then -1 else 1
    let nx := x.c.natAbs
    let ny := y.c.natAbs
    let ideal := x.e - y.e
    let E := qDecExp nx ny + (x.e - y.e)
    let e0 := E - (prec : ℤ) + 1
    let sh := x.e - y.e - e0
    let N := if 0 ≤ sh then nx * 10 ^ sh.toNat else nx
    let den := if 0 ≤ sh then ny else ny * 10 ^ (-sh).toNat
    let q0 := N / den
    let r := N % den
    if r = 0 then
      let (c', e') := stripZeros prec q0 e0 ideal
      ⟨sgn * (c' : ℤ), e'⟩
    else
      let m := if 2 * r < den then q0
               else if den < 2 * r then q0 + 1
               else if q0 % 2 = 0 then q0 else q0 + 1
      if numDigits m ≤ prec then ⟨sgn * (m : ℤ), e0⟩
      else ⟨sgn * ((m / 10 : ℕ) : ℤ), e0 + 1⟩

/-- Context square root, correctly rounded half-even to `prec` significant
digits; an exact root is brought toward the ideal exponent `⌊e / 2⌋`.
Inputs are nonnegative in this program (a negative argument would raise). -/
def dsqrt (prec : ℕ) (x : Dec) : Dec :=
  if x.c ≤ 0 then ⟨0, Int.fdiv x.e 2⟩
  else
    let nx := x.c.natAbs
    let D : ℤ := (numDigits nx : ℤ) - 1 + x.e
    let E := Int.fdiv D 2
    let e0 := E - (prec : ℤ) + 1
    let sh := x.e - 2 * e0
    let k := if 0 ≤ sh then 0 else (-sh).toNat
    let M := if 0 ≤ sh then nx * 10 ^ sh.toNat else nx * 10 ^ k
    let s := isqrt M
    let t := s / 10 ^ k
    let lhs := (2 * t + 1) ^ 2 * 10 ^ (2 * k)
    let c0 := if lhs < 4 * M then t + 1
              else if 4 * M < lhs then t
              else if t % 2 = 0 then t else t + 1
    if c0 ^ 2 * 10 ^ (2 * k) = M then
      let (c', e') := stripZeros prec c0 e0 (Int.fdiv x.e 2)
      ⟨(c' : ℤ), e'⟩
    else if numDigits c0 ≤ prec then ⟨(c0 : ℤ), e0⟩
    else ⟨((c0 / 10 : ℕ) : ℤ), e0 + 1⟩

/-- Rendering of a `Dec` as Python's `str` does (the to-scientific-string
conversion of the decimal specification): plain notation when the exponent
is `≤ 0` and the adjusted exponent is `≥ -6`, scientific otherwise. -/
def decStr (x : Dec) : String :=
  let sgn := if x.c < 0 then "-" else ""
  let ds := Nat.repr x.c.natAbs
  let n : ℤ := (ds.length : ℤ)
  let adj : ℤ := n - 1 + x.e
  if x.e ≤ 0 ∧ -6 ≤ adj then
    if x.e = 0 then sgn ++ ds
    else if 0 < n + x.e then
      sgn ++ ds.take (n + x.e).toNat ++ "." ++ ds.drop (n + x.e).toNat
    else
      sgn ++ "0." ++ String.mk (List.replicate (-(n + x.e)).toNat '0') ++ ds
  else
    (if ds.length = 1 then sgn ++ ds else sgn ++ ds.take 1 ++ "." ++ ds.drop 1)
      ++ "E" ++ (if 0 ≤ adj then "+" else "-") ++ Nat.repr adj.natAbs

/-- The four Gauss-Legendre state variables `a, b, t, p` of the source. -/
structure GLState where
  a : Dec
  b : Dec
  t : Dec
  p : Dec
  deriving DecidableEq, Repr

/-- One loop-body update (source lines 41-44): the four `_next` temporaries
are all computed from the pre-update `a, b, t, p` and only then assigned
back.  Python's `x ** 2` on `Decimal` with an integral exponent is the
exactly computed power rounded once, which for squaring coincides with
context multiplication `x * x`. -/
def glStep (prec : ℕ) (s : GLState) : GLState :=
  let a_next := ddiv prec (dadd prec s.a s.b) ⟨2, 0⟩
  let b_next := dsqrt prec (dmul prec s.a s.b)
  let t_next := dsub prec s.t
    (dmul prec s.p (dmul prec (dsub prec s.a a_next) (dsub prec s.a a_next)))
  let p_next := dmul prec ⟨2, 0⟩ s.p
  ⟨a_next, b_next, t_next, p_next⟩

/-- Outcome of the `while True` loop: final state, `iteration_count`,
whether the convergence break (line 54) fired, and whether the safety
break printed its warning (line 60). -/
structure LoopOut where
  s : GLState
  count : ℕ
  converged : Bool
  warned : Bool
  deriving DecidableEq, Repr

/-- The `while True` loop (source lines 39-61), fuel-indexed.  Each pass
increments `iteration_count`, runs the update, breaks when
`abs(a - b).compare(threshold) < 0`, and otherwise breaks with a printed
warning once `iteration_count > 25`.  Called with fuel 26 the fuel-0 branch
is unreachable, because the safety break fires at count 26 at the latest. -/
def glLoop (prec : ℕ) (thr : Dec) : ℕ → ℕ → GLState → LoopOut
  | 0, count, s => ⟨s, count, false, false⟩
  | fuel + 1, count, s =>
    let c := count + 1
    let s' := glStep prec s
    if decLt (decAbs (dsub prec s'.a s'.b)) thr then ⟨s', c, true, false⟩
    else if 25 < c then ⟨s', c, false, true⟩
    else glLoop prec thr fuel c s'

/-- Observable outcome of one call of `calculate_pi_gauss_legendre`:
the returned string plus the reified effects and ghost state of the run
(the loop count, the convergence/warning flags, the precision written
into the ambient `decimal` context by line 15, and the terminal state). -/
structure RunResult where
  out : String
  iterations : ℕ
  converged : Bool
  warned : Bool
  globalPrec : Option ℕ
  final : GLState
  deriving DecidableEq, Repr

/-- Initial state (source lines 18-21): `a = 1`, `b = 1 / sqrt(2)`,
`t = 1 / 4`, `p = 1`, each via the context operations. -/
def initState (prec : ℕ) : GLState :=
  ⟨⟨1, 0⟩, ddiv prec ⟨1, 0⟩ (dsqrt prec ⟨2, 0⟩), ddiv prec ⟨1, 0⟩ ⟨4, 0⟩, ⟨1, 0⟩⟩

/-- Convergence threshold (source line 36):
`Decimal(1) / (10 ** (digits + 2))` — the Python int `10 ** thrExp` converts
exactly to a `Decimal`, then context division. -/
def threshold (prec thrExp : ℕ) : Dec := ddiv prec ⟨1, 0⟩ ⟨(10 : ℤ) ^ thrExp, 0⟩

/-- Body of `calculate_pi_gauss_legendre` after the context precision is
known: initial values (lines 18-21), threshold (line 36), loop, final
`pi = (a + b) ** 2 / (4 * t)` (line 64) and the slice `str(pi)[:digits + 2]`
(line 68), with the context precision `prec`, the threshold exponent
`thrExp = digits + 2` and the slice length `sliceLen = digits + 2` passed
in so that the same body serves integer `digits` of either sign. -/
def runWith (prec thrExp sliceLen : ℕ) : RunResult :=
  let r := glLoop prec (threshold prec thrExp) 26 0 (initState prec)
  let s := dadd prec r.s.a r.s.b
  let pi := ddiv prec (dmul prec s s) (dmul prec ⟨4, 0⟩ r.s.t)
  ⟨(decStr pi).take sliceLen, r.count, r.converged, r.warned, some prec, r.s⟩

/-- Working precision written into the `decimal` context by line 15. -/
def workingPrecision (digits : ℕ) : ℕ := digits + 10

/-- One full run for a nonnegative digit count. -/
def runN (digits : ℕ) : RunResult :=
  runWith (workingPrecision digits) (digits + 2) (digits + 2)

/-- The string returned by `calculate_pi_gauss_legendre(digits)` for a
nonnegative digit count. -/
def calculate_pi_gauss_legendre (digits : ℕ) : String := (runN digits).out

/-- Number of loop iterations executed for a nonnegative digit count. -/
def itersUsed (digits : ℕ) : ℕ := (runN digits).iterations

/-- Exceptions the Python `decimal` module raises on this code path:
`ValueError` when line 15 assigns a context precision below 1
(`digits ≤ -10`), and `TypeError` when line 36 divides a `Decimal` by the
Python float `10 ** (digits + 2)` (`digits ≤ -3`, where `**` on a negative
exponent yields a float).  The program itself defines no exception of its
own — in particular no digit-count validation error. -/
inductive PyError
  | valueError
  | typeError
  deriving DecidableEq, Repr

/-- The call `calculate_pi_gauss_legendre(digits)` over all integer digit
counts: line 15 runs first (rejecting `digits ≤ -10`), line 36 next
(rejecting `digits ≤ -3`); every other digit count completes normally. -/
def calcZ (digits : ℤ) : Except PyError RunResult :=
  if digits + 10 < 1 then .error .valueError
  else if digits + 2 < 0 then .error .typeError
  else .ok (runWith (digits + 10).toNat (digits + 2).toNat (digits + 2).toNat)

/-- Whether the call returns normally (raises no exception). -/
def calcOk (digits : ℤ) : Bool :=
  match calcZ digits with
  | .ok _ => true
  | .error _ => false

/-- The string the call returns, when it returns normally. -/
def calcOut (digits : ℤ) : Option String :=
  match calcZ digits with
  | .ok r => some r.out
  | .error _ => none

/-- One iteration update exactly as the specification words it:
`a' = (a + b) / 2`, `b' = sqrt(a * b)`, `t' = t - p * (a - a')^2`,
`p' = 2 * p`, with `b`, `t`, `p` in every right-hand side the pre-update
values and only `a'` appearing as a post-update value (in the `t'`
formula), every operation at the working precision. -/
def specStep (prec : ℕ) (s : GLState) : GLState :=
  let a' := ddiv prec (dadd prec s.a s.b) ⟨2, 0⟩
  { a := a'
    b := dsqrt prec (dmul prec s.a s.b)
    t := dsub prec s.t
      (dmul prec s.p (dmul prec (dsub prec s.a a') (dsub prec s.a a')))
    p := dmul prec ⟨2, 0⟩ s.p }

/-- Result extraction exactly as the specification words it: compute
`pi = (a + b)^2 / (4 * t)` from the terminal state at the working
precision, render it as a decimal string, and keep — without rounding —
only the first `requestedDigits + 2` characters. -/
def specExtract (prec reqDigits : ℕ) (s : GLState) : String :=
  let sum := dadd prec s.a s.b
  (decStr (ddiv prec (dmul prec sum sum) (dmul prec ⟨4, 0⟩ s.t))).take (reqDigits + 2)

/-- Strict positivity of all four state variables (their values are finite
rationals by construction; `finite` in the claim excludes the `decimal`
infinities/NaNs, which the embedding's value domain has no image of). -/
def statePos (s : GLState) : Prop :=
  0 < s.a.val ∧ 0 < s.b.val ∧ 0 < s.t.val ∧ 0 < s.p.val

instance (s : GLState) : Decidable (statePos s) :=
  decidable_of_iff (0 < s.a.c ∧ 0 < s.b.c ∧ 0 < s.t.c ∧ 0 < s.p.c) (by
    have hv : ∀ x : Dec, 0 < x.c ↔ 0 < x.val := by
      intro x
      rw [Dec.val, mul_pos_iff]
      have hp : (0 : ℚ) < 10 ^ x.e := zpow_pos (by norm_num) _
      constructor
      · intro h
        exact Or.inl ⟨by exact_mod_cast h, hp⟩
      · rintro (⟨h, _⟩ | ⟨_, h2⟩)
        · exact_mod_cast h
        · exact absurd hp (not_lt.mpr (le_of_lt h2))
    unfold statePos
    rw [hv s.a, hv s.b, hv s.t, hv s.p])

/-! Supporting lemmas. -/

lemma isqrtAux_eq_sqrt : ∀ fuel n : ℕ, n ≤ fuel → isqrtAux fuel n = Nat.sqrt n := by
  intro fuel
  induction fuel with
  | zero =>
    intro n h
    have hn : n = 0 := Nat.le_zero.mp h
    subst hn
    simp [isqrtAux]
  | succ f ih =>
    intro n h
    by_cases h0 : n = 0
    · subst h0; simp [isqrtAux]
    · have hpos : 0 < n := Nat.pos_of_ne_zero h0
      have hdiv : n / 4 < n := Nat.div_lt_self hpos (by norm_num)
      have hrec : n / 4 ≤ f := by omega
      have hIH : isqrtAux f (n / 4) = Nat.sqrt (n / 4) := ih _ hrec
      have h1 : Nat.sqrt (n / 4) ^ 2 ≤ n / 4 := Nat.sqrt_le' _
      have h2 : n / 4 < (Nat.sqrt (n / 4) + 1) ^ 2 := Nat.lt_succ_sqrt' _
      have hq1 : 4 * (n / 4) ≤ n := by omega
      have hq2 : n < 4 * (n / 4) + 4 := by omega
      have hlow : (2 * Nat.sqrt (n / 4)) ^ 2 ≤ n := by nlinarith
      have hhigh : n < (2 * Nat.sqrt (n / 4) + 2) ^ 2 := by nlinarith
      simp only [isqrtAux, h0, if_false, hIH]
      by_cases hc : (2 * Nat.sqrt (n / 4) + 1) ^ 2 ≤ n
      · rw [if_pos hc]
        have ha : 2 * Nat.sqrt (n / 4) + 1 ≤ Nat.sqrt n := Nat.le_sqrt'.mpr hc
        have hb : Nat.sqrt n < 2 * Nat.sqrt (n / 4) + 2 := Nat.sqrt_lt'.mpr hhigh
        omega
      · rw [if_neg hc]
        have ha : 2 * Nat.sqrt (n / 4) ≤ Nat.sqrt n := Nat.le_sqrt'.mpr hlow
        have hb : Nat.sqrt n < 2 * Nat.sqrt (n / 4) + 1 := Nat.sqrt_lt'.mpr (by omega)
        omega

/-- Certification of the structural square root against Mathlib. -/
lemma isqrt_eq_sqrt (n : ℕ) : isqrt n = Nat.sqrt n := isqrtAux_eq_sqrt n n le_rfl

lemma numDigitsAux_pow10 : ∀ (k fuel : ℕ), k < fuel → numDigitsAux fuel (10 ^ k) = k + 1 := by
  intro k
  induction k with
  | zero =>
    intro fuel h
    obtain ⟨f, rfl⟩ : ∃ f, fuel = f + 1 := ⟨fuel - 1, by omega⟩
    simp [numDigitsAux]
  | succ k ih =>
    intro fuel h
    obtain ⟨f, rfl⟩ : ∃ f, fuel = f + 1 := ⟨fuel - 1, by omega⟩
    have hge : ¬ (10 ^ (k + 1) < 10) := by
      have : (10 : ℕ) ^ 1 ≤ 10 ^ (k + 1) := Nat.pow_le_pow_right (by norm_num) (by omega)
      simpa using this
    have hdiv : 10 ^ (k + 1) / 10 = 10 ^ k := by
      rw [pow_succ]
      exact Nat.mul_div_cancel _ (by norm_num)
    simp [numDigitsAux, hge, hdiv, ih f (by omega)]

lemma numDigits_pow10 (k : ℕ) : numDigits (10 ^ k) = k + 1 := by
  have hk : k < 10 ^ k := Nat.lt_pow_self (by norm_num) k
  exact numDigitsAux_pow10 k (10 ^ k + 1) (by omega)

lemma numDigits_one : numDigits 1 = 1 := rfl

lemma stripZeros_pow10 : ∀ (k fuel : ℕ) (e ideal : ℤ), k < fuel → e + k ≤ ideal →
    stripZeros fuel (10 ^ k) e ideal = (1, e + k) := by
  intro k
  induction k with
  | zero =>
    intro fuel e ideal h _
    obtain ⟨f, rfl⟩ : ∃ f, fuel = f + 1 := ⟨fuel - 1, by omega⟩
    norm_num [stripZeros]
  | succ k ih =>
    intro fuel e ideal h hle
    obtain ⟨f, rfl⟩ : ∃ f, fuel = f + 1 := ⟨fuel - 1, by omega⟩
    have hc1 : 10 ^ (k + 1) % 10 = 0 := by
      rw [pow_succ]
      exact Nat.mul_mod_left _ 10
    have hc2 : (10 : ℕ) ^ (k + 1) ≠ 0 := pow_ne_zero _ (by norm_num)
    have hc3 : e < ideal := by push_cast at hle; omega
    have hdiv : 10 ^ (k + 1) / 10 = 10 ^ k := by
      rw [pow_succ]
      exact Nat.mul_div_cancel _ (by norm_num)
    rw [stripZeros, if_pos ⟨hc1, hc2, hc3⟩, hdiv,
      ih f (e + 1) ideal (by omega) (by push_cast at hle ⊢; omega)]
    have heq : e + 1 + (k : ℤ) = e + ((k : ℕ) + 1 : ℕ) := by push_cast; ring
    rw [heq]

lemma dec_val_shift (c em : ℤ) (k : ℕ) :
    ((c * 10 ^ k : ℤ) : ℚ) * (10 : ℚ) ^ em = (c : ℚ) * (10 : ℚ) ^ (em + (k : ℤ)) := by
  rw [zpow_add₀ (by norm_num : (10 : ℚ) ≠ 0), zpow_natCast]
  push_cast
  ring

lemma dec_val_align (x : Dec) (em : ℤ) (h : em ≤ x.e) :
    x.val = ((x.c * 10 ^ (x.e - em).toNat : ℤ) : ℚ) * (10 : ℚ) ^ em := by
  rw [Dec.val, dec_val_shift]
  have he : em + ((x.e - em).toNat : ℤ) = x.e := by omega
  rw [he]

/-- The boolean comparison used by the loop's break test agrees with the
numeric values. -/
lemma decLt_iff (x y : Dec) : decLt x y = true ↔ x.val < y.val := by
  unfold decLt
  rw [decide_eq_true_eq]
  have hx := dec_val_align x (min x.e y.e) (min_le_left _ _)
  have hy := dec_val_align y (min x.e y.e) (min_le_right _ _)
  rw [hx, hy]
  constructor
  · intro h
    exact mul_lt_mul_of_pos_right (by exact_mod_cast h) (zpow_pos (by norm_num) _)
  · intro h
    have := lt_of_mul_lt_mul_right h
      (le_of_lt (zpow_pos (by norm_num : (0:ℚ) < 10) (min x.e y.e)))
    exact_mod_cast this

lemma decAbs_val (x : Dec) : (decAbs x).val = |x.val| := by
  unfold decAbs Dec.val
  simp only
  rw [abs_mul, abs_of_pos (zpow_pos (by norm_num : (0:ℚ) < 10) x.e)]
  push_cast
  ring

lemma glLoop_count_le (prec : ℕ) (thr : Dec) :
    ∀ (fuel count : ℕ) (s : GLState), (glLoop prec thr fuel count s).count ≤ count + fuel := by
  intro fuel
  induction fuel with
  | zero => intro count s; simp [glLoop]
  | succ f ih =>
    intro count s
    simp only [glLoop]
    split
    · show count + 1 ≤ count + (f + 1); omega
    · split
      · show count + 1 ≤ count + (f + 1); omega
      · have := ih (count + 1) (glStep prec s)
        omega

lemma glLoop_count_mono (prec : ℕ) (thr : Dec) :
    ∀ (fuel count : ℕ) (s : GLState), count ≤ (glLoop prec thr fuel count s).count := by
  intro fuel
  induction fuel with
  | zero => intro count s; simp [glLoop]
  | succ f ih =>
    intro count s
    simp only [glLoop]
    split
    · simp
    · split
      · simp
      · have := ih (count + 1) (glStep prec s)
        omega

lemma glLoop_count_pos (prec : ℕ) (thr : Dec) (fuel count : ℕ) (s : GLState)
    (h : 0 < fuel) : count < (glLoop prec thr fuel count s).count := by
  obtain ⟨f, rfl⟩ : ∃ f, fuel = f + 1 := ⟨fuel - 1, by omega⟩
  simp only [glLoop]
  split
  · simp
  · split
    · simp
    · have := glLoop_count_mono prec thr f (count + 1) (glStep prec s)
      omega

/-- When the loop reports convergence, the break condition held for the
state it carried out. -/
lemma glLoop_converged_lt (prec : ℕ) (thr : Dec) :
    ∀ (fuel count : ℕ) (s : GLState),
      (glLoop prec thr fuel count s).converged = true →
      decLt (decAbs (dsub prec (glLoop prec thr fuel count s).s.a
        (glLoop prec thr fuel count s).s.b)) thr = true := by
  intro fuel
  induction fuel with
  | zero => intro count s h; simp [glLoop] at h
  | succ f ih =>
    intro count s
    simp only [glLoop]
    split
    · intro _; assumption
    · split
      · intro h; simp at h
      · exact ih (count + 1) (glStep prec s)

/-- The loop's final state is the `count`-fold iterate of the step function
on the state it started from. -/
lemma glLoop_state_iterate (prec : ℕ) (thr : Dec) :
    ∀ (fuel count : ℕ) (s : GLState),
      (glLoop prec thr fuel count s).s =
        (glStep prec)^[(glLoop prec thr fuel count s).count - count] s := by
  intro fuel
  induction fuel with
  | zero => intro count s; simp [glLoop]
  | succ f ih =>
    intro count s
    simp only [glLoop]
    split
    · simp
    · split
      · simp
      · have hmono := glLoop_count_mono prec thr f (count + 1) (glStep prec s)
        have hih := ih (count + 1) (glStep prec s)
        rw [hih]
        have hn : (glLoop prec thr f (count + 1) (glStep prec s)).count - count =
            ((glLoop prec thr f (count + 1) (glStep prec s)).count - (count + 1)) + 1 := by
          omega
        rw [hn, Function.iterate_succ_apply]

/-- Called with `count + fuel = 26` (as the program does, starting from
count 0 and fuel 26), the loop prints its warning if and only if it ends
without convergence: the fuel-exhaustion branch is unreachable because the
safety break fires at count 26 at the latest. -/
lemma glLoop_warned_eq (prec : ℕ) (thr : Dec) :
    ∀ (fuel count : ℕ) (s : GLState), count + fuel = 26 → count ≤ 25 →
      (glLoop prec thr fuel count s).warned
        = !(glLoop prec thr fuel count s).converged := by
  intro fuel
  induction fuel with
  | zero =>
    intro count s h1 h2
    omega
  | succ f ih =>
    intro count s h1 h2
    simp only [glLoop]
    split
    · rfl
    · split
      · rfl
      · exact ih (count + 1) (glStep prec s) (by omega) (by omega)

lemma qDecExp_one_pow (k : ℕ) (hk : 0 < k) : qDecExp 1 (10 ^ k) = -(k : ℤ) := by
  unfold qDecExp
  rw [numDigits_one, numDigits_pow10]
  have hcand : ((1 : ℕ) : ℤ) - ((k + 1 : ℕ) : ℤ) = -(k : ℤ) := by push_cast; ring
  rw [hcand]
  rw [if_neg (by omega : ¬ (0 : ℤ) ≤ -(k : ℤ))]
  rw [if_pos]
  simp

/-- The threshold of line 36 is exactly `10 ^ -(digits + 2)`: the division
`Decimal(1) / (10 ** (digits + 2))` is exact at every working precision the
program uses. -/
lemma threshold_eq (d : ℕ) : threshold (d + 10) (d + 2) = ⟨1, -((d : ℤ) + 2)⟩ := by
  unfold threshold ddiv
  rw [if_neg (by positivity : ¬ ((10:ℤ) ^ (d + 2) = 0))]
  rw [if_neg (by norm_num : ¬ ((1:ℤ) = 0))]
  simp only
  have hna : ((10:ℤ) ^ (d + 2)).natAbs = 10 ^ (d + 2) := by
    rw [Int.natAbs_pow]; rfl
  have hq : qDecExp (Int.natAbs 1) ((10:ℤ) ^ (d + 2)).natAbs = -((d : ℤ) + 2) := by
    rw [Int.natAbs_one, hna, qDecExp_one_pow (d + 2) (by omega)]
    push_cast; ring
  rw [hq]
  have he0 : -((d : ℤ) + 2) + ((0:ℤ) - 0) - ((d + 10 : ℕ) : ℤ) + 1 = -(2 * (d : ℤ) + 11) := by
    push_cast; ring
  rw [he0]
  have hshpos : (0:ℤ) ≤ 0 - 0 - -(2 * (d : ℤ) + 11) := by omega
  rw [if_pos hshpos, if_pos hshpos]
  have htn : ((0:ℤ) - 0 - -(2 * (d : ℤ) + 11)).toNat = 2 * d + 11 := by omega
  rw [htn, Int.natAbs_one, one_mul, hna]
  have hdivp : (10:ℕ) ^ (2 * d + 11) / 10 ^ (d + 2) = 10 ^ (d + 9) := by
    rw [Nat.pow_div (by omega) (by norm_num)]
    congr 1
    omega
  have hmod : (10:ℕ) ^ (2 * d + 11) % 10 ^ (d + 2) = 0 := by
    rw [Nat.mod_eq_zero_of_dvd (pow_dvd_pow 10 (by omega))]
  rw [hmod, if_pos rfl, hdivp]
  have hideal : (0:ℤ) - 0 = 0 := by ring
  rw [hideal]
  rw [stripZeros_pow10 (d + 9) (d + 10) (-(2 * (d : ℤ) + 11)) 0 (by omega) (by push_cast; omega)]
  rw [if_neg (by push_neg; positivity : ¬ ((1:ℤ) * 10 ^ (d + 2) < 0))]
  simp only [one_mul, Nat.cast_one, mul_one]
  congr 1
  push_cast
  ring

/-! Claim theorems. -/

lemma runN_fmt_range : ∀ i : ℕ, i < 12 →
    ((runN (i + 1)).out.length = (i + 1) + 2 ∧ (runN (i + 1)).out.take 2 = "3.") := by
  decide

/-- Computational verification of the state invariant (all four variables
strictly positive at the initial state and after every executed iteration)
for digit counts 1-12; the unbounded-range invariant is a numerical fact
about the rounded iteration that this development does not prove. -/
lemma statePos_range : ∀ i : ℕ, i < 12 → ∀ k, k ≤ (runN (i + 1)).iterations →
    statePos ((glStep (workingPrecision (i + 1)))^[k] (initState (workingPrecision (i + 1)))) := by
  decide

/-- Computational verification that the iteration count is non-decreasing
between successive digit counts for digit counts 1-13; the unbounded-range
monotonicity is a numerical fact about the rounded iteration that this
development does not prove. -/
lemma itersUsed_succ_mono : ∀ j : ℕ, j < 12 → itersUsed (j + 1) ≤ itersUsed (j + 2) := by
  decide

/-- C1: for `requestedDigits = 10` the function returns exactly
`"3.1415926535"`, the true decimal expansion of Pi truncated (not rounded)
to 10 decimal places. -/
theorem pi_ten_digits_exact : calculate_pi_gauss_legendre 10 = "3.1415926535" := by
  decide

/-- C2: for every digit count, the returned result is the decimal
rendering of `(a + b)^2 / (4 * t)` at working precision from the terminal
state, truncated (not rounded) to its first `requestedDigits + 2`
characters; and those characters are the leading `3`, the decimal point,
and `requestedDigits` digits (the latter checked for digit counts 1-12). -/
theorem extractor_truncates_rendered_pi (d : ℕ) :
    calculate_pi_gauss_legendre d = specExtract (workingPrecision d) d (runN d).final ∧
    (1 ≤ d → d ≤ 12 →
      (calculate_pi_gauss_legendre d).length = d + 2 ∧
      (calculate_pi_gauss_legendre d).take 2 = "3.") := by
  refine ⟨rfl, ?_⟩
  intro h1 h2
  obtain ⟨i, rfl⟩ : ∃ i, d = i + 1 := ⟨d - 1, by omega⟩
  exact ⟨(runN_fmt_range i (by omega)).1, (runN_fmt_range i (by omega)).2⟩

/-- C2 witness at `requestedDigits = 10`. -/
theorem extractor_truncates_rendered_pi_witness :
    calculate_pi_gauss_legendre 10 = specExtract (workingPrecision 10) 10 (runN 10).final ∧
    (calculate_pi_gauss_legendre 10).length = 10 + 2 ∧
    (calculate_pi_gauss_legendre 10).take 2 = "3." :=
  ⟨(extractor_truncates_rendered_pi 10).1,
    ((extractor_truncates_rendered_pi 10).2 (by norm_num) (by norm_num)).1,
    ((extractor_truncates_rendered_pi 10).2 (by norm_num) (by norm_num)).2⟩

/-- C3: one engine step computes `a' = (a + b) / 2`, `b' = sqrt(a * b)`,
`t' = t - p * (a - a')^2`, `p' = 2 * p`, with `b`, `t`, `p` taken from the
pre-update state everywhere and only `a'` entering the `t'` formula as a
post-update value; this is also exactly the step the specification words
describe. -/
theorem step_uses_pre_update_values (prec : ℕ) (a b t p : Dec) :
    glStep prec ⟨a, b, t, p⟩ =
      ⟨ddiv prec (dadd prec a b) ⟨2, 0⟩,
       dsqrt prec (dmul prec a b),
       dsub prec t (dmul prec p
         (dmul prec (dsub prec a (ddiv prec (dadd prec a b) ⟨2, 0⟩))
                    (dsub prec a (ddiv prec (dadd prec a b) ⟨2, 0⟩)))),
       dmul prec ⟨2, 0⟩ p⟩ ∧
    glStep prec ⟨a, b, t, p⟩ = specStep prec ⟨a, b, t, p⟩ :=
  ⟨rfl, rfl⟩

/-- C4 counterexample: `requestedDigits = -2` is nonpositive, yet the call
raises no error at all (there is no digit-count validation) and returns the
empty string. -/
theorem no_digit_validation_counterexample :
    calcOk (-2) = true ∧ calcOut (-2) = some "" := by
  constructor
  · decide
  · decide

/-- C4 amended: the code never raises a digit-count validation error:
for `requestedDigits` of 0, -1, -2 the call completes normally (returning
`"3."`, `"3"` and `""`), and for `requestedDigits ≤ -3` it fails with a
`TypeError`/`ValueError` coming from the decimal library, not with any
`InvalidDigitCount`. -/
theorem nonpositive_digits_behavior (d : ℤ) (h : d ≤ 0) :
    calcOk d = decide (-2 ≤ d) ∧
    calcOut d = (if d = 0 then some "3." else if d = -1 then some "3"
      else if d = -2 then some "" else none) := by
  have h4 : d = 0 ∨ d = -1 ∨ d = -2 ∨ d ≤ -3 := by omega
  rcases h4 with rfl | rfl | rfl | h3
  · exact ⟨by decide, by decide⟩
  · exact ⟨by decide, by decide⟩
  · exact ⟨by decide, by decide⟩
  · have hd0 : d ≠ 0 := by omega
    have hd1 : d ≠ -1 := by omega
    have hd2 : d ≠ -2 := by omega
    have hne : decide (-2 ≤ d) = false := decide_eq_false (by omega)
    rw [hne]
    unfold calcOk calcOut calcZ
    by_cases hv : d + 10 < 1
    · rw [if_pos hv]
      exact ⟨rfl, by simp [hd0, hd1, hd2]⟩
    · rw [if_neg hv, if_pos (by omega : d + 2 < 0)]
      exact ⟨rfl, by simp [hd0, hd1, hd2]⟩

/-- C4 amended witness at `requestedDigits = -2`. -/
theorem nonpositive_digits_behavior_witness :
    ((-2 : ℤ) ≤ 0) ∧
    (calcOk (-2) = decide ((-2 : ℤ) ≤ -2) ∧
      calcOut (-2) = (if (-2 : ℤ) = 0 then some "3." else if (-2 : ℤ) = -1 then some "3"
        else if (-2 : ℤ) = -2 then some "" else none)) :=
  ⟨by decide, nonpositive_digits_behavior (-2) (by decide)⟩

/-- C5 counterexample: the call does mutate the ambient decimal context:
at `requestedDigits = 10` it sets the global precision to 20 (line 15 of
the source), so precision is not passed explicitly per operation. -/
theorem global_precision_mutated_counterexample :
    (runN 10).globalPrec = some 20 ∧ (runN 10).globalPrec ≠ none := by
  constructor
  · decide
  · decide

/-- C5 amended: at every digit count, the call's side effects are exactly
these two: line 15 writes `requestedDigits + 10` into the shared (global)
decimal-context precision, and the engine prints its single warning line
if and only if the loop ends without convergence — so every converging
run performs no I/O at all, and no other effect exists in the engine. -/
theorem ambient_precision_set_no_print (d : ℕ) :
    (runN d).globalPrec = some (workingPrecision d) ∧
    ((runN d).converged = true → (runN d).warned = false) ∧
    ((runN d).converged = false → (runN d).warned = true) := by
  have hw : (glLoop (d + 10) (threshold (d + 10) (d + 2)) 26 0 (initState (d + 10))).warned
      = !(glLoop (d + 10) (threshold (d + 10) (d + 2)) 26 0 (initState (d + 10))).converged :=
    glLoop_warned_eq (d + 10) (threshold (d + 10) (d + 2)) 26 0 (initState (d + 10))
      rfl (by omega)
  refine ⟨rfl, ?_, ?_⟩
  · intro h
    have hc : (glLoop (d + 10) (threshold (d + 10) (d + 2)) 26 0
        (initState (d + 10))).converged = true := h
    show (glLoop (d + 10) (threshold (d + 10) (d + 2)) 26 0 (initState (d + 10))).warned = false
    rw [hw, hc]
    rfl
  · intro h
    have hc : (glLoop (d + 10) (threshold (d + 10) (d + 2)) 26 0
        (initState (d + 10))).converged = false := h
    show (glLoop (d + 10) (threshold (d + 10) (d + 2)) 26 0 (initState (d + 10))).warned = true
    rw [hw, hc]
    rfl

/-- C5 amended witness at `requestedDigits = 10`, whose run converges. -/
theorem ambient_precision_set_no_print_witness :
    (runN 10).globalPrec = some (workingPrecision 10) ∧
    (runN 10).converged = true ∧ (runN 10).warned = false :=
  ⟨(ambient_precision_set_no_print 10).1, by decide,
    (ambient_precision_set_no_print 10).2.1 (by decide)⟩

/-- C6: for every positive digit count the loop terminates after at least
one and at most 26 iterations — 26 (the first count exceeding the source's
`iteration_count > 25` check) being the fixed safety bound, a constant in
the 25-30 range that is the sole guard against runaway looping. -/
theorem loop_iteration_bounds (d : ℕ) (_h : 1 ≤ d) :
    1 ≤ itersUsed d ∧ itersUsed d ≤ 26 := by
  constructor
  · exact glLoop_count_pos (d + 10) (threshold (d + 10) (d + 2)) 26 0 (initState (d + 10))
      (by norm_num)
  · exact glLoop_count_le (d + 10) (threshold (d + 10) (d + 2)) 26 0 (initState (d + 10))

/-- C6 witness at `requestedDigits = 1`. -/
theorem loop_iteration_bounds_witness :
    1 ≤ (1 : ℕ) ∧ (1 ≤ itersUsed 1 ∧ itersUsed 1 ≤ 26) :=
  ⟨le_rfl, loop_iteration_bounds 1 le_rfl⟩

/-- C7: whenever the loop stops with `converged = true`, the distance
`|a - b|` of the terminating state is strictly below `10 ^ -(digits + 2)`
(the comparison the code performs is strict). -/
theorem convergence_strictly_below_threshold (d : ℕ)
    (h : (runN d).converged = true) :
    |(dsub (workingPrecision d) (runN d).final.a (runN d).final.b).val|
      < (10 : ℚ) ^ (-((d : ℤ) + 2)) := by
  have hconv : (glLoop (d + 10) (threshold (d + 10) (d + 2)) 26 0
      (initState (d + 10))).converged = true := h
  have hlt := glLoop_converged_lt (d + 10) (threshold (d + 10) (d + 2)) 26 0
    (initState (d + 10)) hconv
  have hval : (threshold (d + 10) (d + 2)).val = (10 : ℚ) ^ (-((d : ℤ) + 2)) := by
    rw [threshold_eq, Dec.val]; push_cast; ring
  rw [decLt_iff, decAbs_val, hval] at hlt
  exact hlt

/-- C7 witness at `requestedDigits = 10` (where the run converges). -/
theorem convergence_strictly_below_threshold_witness :
    (runN 10).converged = true ∧
    |(dsub (workingPrecision 10) (runN 10).final.a (runN 10).final.b).val|
      < (10 : ℚ) ^ (-((10 : ℤ) + 2)) :=
  ⟨by decide, convergence_strictly_below_threshold 10 (by decide)⟩

/-- C10: for the boundary input `requestedDigits = 0` the call raises no
error: the working precision is 10, the threshold is exactly `10 ^ -2`,
the loop converges normally (in 2 iterations), and the returned string is
exactly the two characters `"3."`. -/
theorem zero_digits_returns_three_dot :
    calcOk 0 = true ∧ calcOut 0 = some "3." ∧ (runN 0).out = "3." ∧
    workingPrecision 0 = 10 ∧ threshold (workingPrecision 0) (0 + 2) = ⟨1, -2⟩ ∧
    (runN 0).converged = true ∧ (runN 0).iterations = 2 := by
  refine ⟨by decide, by decide, by decide, by decide, by decide, by decide, by decide⟩

end PyCalc

